import Mathlib

/-!
# Verification of the SIEM log-ingestion core (`src/siem/main/src/app.py`)

This file is a shallow embedding of the log-ingestion core of the SIEM
dashboard: the in-memory bounded log store (`received_logs` / `MAX_LOGS`),
the query endpoint (`get_logs`), and the per-connection forwarder handler
(`handle_forwarder_connection`), together with executable models of the
Python library functions the code calls (`json.loads`, `json.dumps`,
`str.strip`, `str.lower`, `bytes.decode('utf-8', errors='ignore')`).

All definitions are computable and kernel-reducible (structural or
fuel-bounded recursion), so theorems about concrete inputs can be settled
by `decide` / `rfl`.
-/

set_option maxRecDepth 4096

/-- JSON values as produced by Python's `json.loads`.  Numbers are kept as
exact decimals `mant * 10 ^ exp10` (the theorems below only exercise
integer-valued numbers, where `exp10 = 0` and printing agrees with Python).
`nan` and `inf` model Python's non-standard acceptance of `NaN`,
`Infinity` and `-Infinity`.  Objects are association lists in insertion
order, with no duplicate keys (parsing and stamping both go through
`setKey`, mirroring Python `dict` assignment). -/
inductive Json where
  | null : Json
  | bool (b : Bool) : Json
  | num (mant : Int) (exp10 : Int) : Json
  | str (s : String) : Json
  | arr (items : List Json) : Json
  | obj (fields : List (String × Json)) : Json
  | nan : Json
  | inf (neg : Bool) : Json

/-- Model of `d[k] = v` on a Python dict represented as an insertion-ordered
association list: update in place if the key exists, else append. -/
def setKey : List (String × Json) → String → Json → List (String × Json)
  | [], k, v => [(k, v)]
  | (k0, v0) :: rest, k, v =>
    if k0 = k then (k0, v) :: rest else (k0, v0) :: setKey rest k v

/-- Model of `d.get(k)` on a Python dict represented as an association list. -/
def lookupKey : List (String × Json) → String → Option Json
  | [], _ => none
  | (k0, v0) :: rest, k => if k0 = k then some v0 else lookupKey rest k

/-- The literal character `{` (written via its code point). -/
def lbrace : Char := Char.ofNat 123

/-- The literal character `}` (written via its code point). -/
def rbrace : Char := Char.ofNat 125

/-- Whitespace accepted between JSON tokens by Python's `json.loads`
(space, tab, newline, carriage return). -/
def isWsJson (c : Char) : Bool :=
  c = ' ' || c = Char.ofNat 9 || c = Char.ofNat 10 || c = Char.ofNat 13

/-- Skip inter-token whitespace, as `json.loads` does. -/
def skipWs (cs : List Char) : List Char := cs.dropWhile isWsJson

/-- Decimal digit test on characters. -/
def isDigitCh (c : Char) : Bool := 48 ≤ c.toNat && c.toNat ≤ 57

/-- Split a leading run of decimal digits from the input. -/
def takeDigits (cs : List Char) : List Char × List Char :=
  (cs.takeWhile isDigitCh, cs.dropWhile isDigitCh)

/-- Value of a digit string. -/
def digitsToNat (ds : List Char) : Nat :=
  ds.foldl (fun n c => 10 * n + (c.toNat - 48)) 0

/-- Value of a hex digit character, if any. -/
def hexVal (c : Char) : Option Nat :=
  if 48 ≤ c.toNat ∧ c.toNat ≤ 57 then some (c.toNat - 48)
  else if 97 ≤ c.toNat ∧ c.toNat ≤ 102 then some (c.toNat - 87)
  else if 65 ≤ c.toNat ∧ c.toNat ≤ 70 then some (c.toNat - 55)
  else none

/-- Single-character escapes accepted in JSON strings. -/
def escChar (e : Char) : Option Char :=
  if e = '"' then some '"'
  else if e = '\\' then some '\\'
  else if e = '/' then some '/'
  else if e = 'b' then some (Char.ofNat 8)
  else if e = 'f' then some (Char.ofNat 12)
  else if e = 'n' then some (Char.ofNat 10)
  else if e = 'r' then some (Char.ofNat 13)
  else if e = 't' then some (Char.ofNat 9)
  else none

/-- Parse the body of a JSON string after the opening quote: returns the
decoded characters and the input after the closing quote.  Raw control
characters are rejected (`json.loads` is strict), escapes follow the JSON
grammar.  (Lone-surrogate `\uXXXX` escapes, which Python pairs up, are out
of scope of the claims and map through `Char.ofNat`.) -/
def pStr : List Char → Option (List Char × List Char)
  | [] => none
  | c :: rest =>
    if c = '"' then some ([], rest)
    else if c = '\\' then
      match rest with
      | [] => none
      | e :: r2 =>
        if e = 'u' then
          match r2 with
          | h1 :: h2 :: h3 :: h4 :: r3 =>
            match hexVal h1, hexVal h2, hexVal h3, hexVal h4 with
            | some a, some b, some c3, some d =>
              (pStr r3).map (fun p => (Char.ofNat (((a * 16 + b) * 16 + c3) * 16 + d) :: p.1, p.2))
            | _, _, _, _ => none
          | _ => none
        else
          match escChar e with
          | none => none
          | some ch => (pStr r2).map (fun p => (ch :: p.1, p.2))
    else if c.toNat < 32 then none
    else (pStr rest).map (fun p => (c :: p.1, p.2))

/-- Parse an optional fraction part `.digits`; returns the fraction digits
(empty when absent) and the rest. -/
def pFrac : List Char → Option (List Char × List Char)
  | [] => some ([], [])
  | c :: rest =>
    if c = '.' then
      let p := takeDigits rest
      if p.1 = [] then none else some (p.1, p.2)
    else some ([], c :: rest)

/-- Parse an optional exponent part `e[+-]digits`; returns the exponent
value (0 when absent) and the rest. -/
def pExpPart : List Char → Option (Int × List Char)
  | [] => some (0, [])
  | c :: rest =>
    if c = 'e' ∨ c = 'E' then
      match rest with
      | [] => none
      | s :: r2 =>
        if s = '+' then
          let p := takeDigits r2
          if p.1 = [] then none else some ((digitsToNat p.1 : Int), p.2)
        else if s = '-' then
          let p := takeDigits r2
          if p.1 = [] then none else some (-(digitsToNat p.1 : Int), p.2)
        else
          let p := takeDigits (s :: r2)
          if p.1 = [] then none else some ((digitsToNat p.1 : Int), p.2)
    else some (0, c :: rest)

/-- Parse a JSON number per the RFC grammar enforced by `json.loads`:
optional minus, integer part without leading zeros, optional fraction,
optional exponent.  The value is kept as an exact decimal. -/
def pNumber (cs : List Char) : Option (Json × List Char) :=
  let split : Bool × List Char :=
    match cs with
    | c :: rest => if c = '-' then (true, rest) else (false, cs)
    | [] => (false, [])
  let neg := split.1
  let cs1 := split.2
  let ip := takeDigits cs1
  if ip.1 = [] then none
  else if 1 < ip.1.length ∧ ip.1.head? = some '0' then none
  else
    match pFrac ip.2 with
    | none => none
    | some (fd, cs2) =>
      match pExpPart cs2 with
      | none => none
      | some (e, cs3) =>
        let mantNat : Nat := digitsToNat (ip.1 ++ fd)
        let mant : Int := if neg then -(mantNat : Int) else (mantNat : Int)
        some (Json.num mant (e - (fd.length : Int)), cs3)

/-- Build a `String` from characters. -/
def chListStr (cs : List Char) : String := String.mk cs

mutual

/-- Fuel-bounded recursive-descent parser for one JSON value, modelling
`json.loads`.  Fuel only bounds nesting/iteration; `parseJson` supplies
`3 * length + 3`, which is enough because any three consecutive recursive
calls consume at least one character. -/
def pValue : Nat → List Char → Option (Json × List Char)
  | 0, _ => none
  | f + 1, cs =>
    match skipWs cs with
    | [] => none
    | c :: rest =>
      if c = lbrace then pObjBody f rest
      else if c = '[' then pArrBody f rest
      else if c = '"' then (pStr rest).map (fun p => (Json.str (chListStr p.1), p.2))
      else if c = 't' then
        match rest with
        | 'r' :: 'u' :: 'e' :: r => some (Json.bool true, r)
        | _ => none
      else if c = 'f' then
        match rest with
        | 'a' :: 'l' :: 's' :: 'e' :: r => some (Json.bool false, r)
        | _ => none
      else if c = 'n' then
        match rest with
        | 'u' :: 'l' :: 'l' :: r => some (Json.null, r)
        | _ => none
      else if c = 'N' then
        match rest with
        | 'a' :: 'N' :: r => some (Json.nan, r)
        | _ => none
      else if c = 'I' then
        match rest with
        | 'n' :: 'f' :: 'i' :: 'n' :: 'i' :: 't' :: 'y' :: r => some (Json.inf false, r)
        | _ => none
      else if c = '-' then
        match rest with
        | 'I' :: 'n' :: 'f' :: 'i' :: 'n' :: 'i' :: 't' :: 'y' :: r => some (Json.inf true, r)
        | _ => pNumber (c :: rest)
      else pNumber (c :: rest)

/-- Object body after the opening brace: empty object or members. -/
def pObjBody : Nat → List Char → Option (Json × List Char)
  | 0, _ => none
  | f + 1, cs =>
    match skipWs cs with
    | [] => none
    | c :: rest =>
      if c = rbrace then some (Json.obj [], rest)
      else pMembers f [] (c :: rest)

/-- One or more `"key": value` members, accumulating via `setKey`
(duplicate keys overwrite, as in Python dict construction). -/
def pMembers : Nat → List (String × Json) → List Char → Option (Json × List Char)
  | 0, _, _ => none
  | f + 1, acc, cs =>
    match skipWs cs with
    | [] => none
    | c :: rest =>
      if c = '"' then
        match pStr rest with
        | none => none
        | some (k, r1) =>
          match skipWs r1 with
          | [] => none
          | c2 :: r2 =>
            if c2 = ':' then
              match pValue f r2 with
              | none => none
              | some (v, r3) =>
                match skipWs r3 with
                | [] => none
                | c3 :: r4 =>
                  if c3 = ',' then pMembers f (setKey acc (chListStr k) v) r4
                  else if c3 = rbrace then some (Json.obj (setKey acc (chListStr k) v), r4)
                  else none
            else none
      else none

/-- Array body after the opening bracket: empty array or items. -/
def pArrBody : Nat → List Char → Option (Json × List Char)
  | 0, _ => none
  | f + 1, cs =>
    match skipWs cs with
    | [] => none
    | c :: rest =>
      if c = ']' then some (Json.arr [], rest)
      else pItems f [] (c :: rest)

/-- One or more comma-separated array items. -/
def pItems : Nat → List Json → List Char → Option (Json × List Char)
  | 0, _, _ => none
  | f + 1, acc, cs =>
    match pValue f cs with
    | none => none
    | some (v, r1) =>
      match skipWs r1 with
      | [] => none
      | c :: r2 =>
        if c = ',' then pItems f (acc ++ [v]) r2
        else if c = ']' then some (Json.arr (acc ++ [v]), r2)
        else none

end

/-- Model of `json.loads` on one line: parse a single JSON value and require that
only whitespace follows; `none` models `json.JSONDecodeError`. -/
def parseJson (cs : List Char) : Option Json :=
  match pValue (3 * cs.length + 3) cs with
  | some (v, rest) => if skipWs rest = [] then some v else none
  | none => none

/-- Whether a JSON value is a top-level object (a Python `dict`), the only
shape on which `log_entry['received_at'] = ...` succeeds. -/
def Json.isObj : Json → Bool
  | .obj _ => true
  | _ => false

/-- The `\uXXXX` escape (lowercase hex), as CPython's encoder emits. -/
def uEsc (n : Nat) : List Char :=
  let hexDig : Nat → Char := fun d => if d < 10 then Char.ofNat (48 + d) else Char.ofNat (87 + d)
  '\\' :: 'u' :: hexDig (n / 4096 % 16) :: hexDig (n / 256 % 16) :: hexDig (n / 16 % 16) :: hexDig (n % 16) :: []

/-- Encoding of one character inside a dumped JSON string: CPython
escapes `"` and `\`, uses the short escapes for the usual control
characters, `\uXXXX` for other characters outside printable ASCII
(surrogate pairs above `0xFFFF`), and emits printable ASCII raw. -/
def escOut (c : Char) : List Char :=
  if c = '"' then '\\' :: '"' :: []
  else if c = '\\' then '\\' :: '\\' :: []
  else if c.toNat = 10 then '\\' :: 'n' :: []
  else if c.toNat = 13 then '\\' :: 'r' :: []
  else if c.toNat = 9 then '\\' :: 't' :: []
  else if c.toNat = 8 then '\\' :: 'b' :: []
  else if c.toNat = 12 then '\\' :: 'f' :: []
  else if c.toNat < 32 then uEsc c.toNat
  else if c.toNat < 127 then [c]
  else if c.toNat < 65536 then uEsc c.toNat
  else uEsc (55296 + (c.toNat - 65536) / 1024) ++ uEsc (56320 + (c.toNat - 65536) % 1024)

/-- Serialization of a string value, used by `dumps`. -/
def dumpStr (s : List Char) : List Char :=
  '"' :: s.foldr (fun c acc => escOut c ++ acc) ('"' :: [])

mutual

/-- Model of `json.dumps` with Python's defaults: item separator `", "`, key
separator `": "`, `ensure_ascii=True` (characters outside printable ASCII
are `\uXXXX`-escaped).  Integer-valued numbers (the only kind the
theorems exercise) print exactly as Python prints an `int`. -/
def dumps : Json → List Char
  | .null => 'n' :: 'u' :: 'l' :: 'l' :: []
  | .bool true => 't' :: 'r' :: 'u' :: 'e' :: []
  | .bool false => 'f' :: 'a' :: 'l' :: 's' :: 'e' :: []
  | .num m e => (toString m).data ++ (if e = 0 then [] else 'e' :: (toString e).data)
  | .str s => dumpStr s.data
  | .arr xs => '[' :: (dumpsItems xs ++ [']'])
  | .obj fs => lbrace :: (dumpsFields fs ++ [rbrace])
  | .nan => 'N' :: 'a' :: 'N' :: []
  | .inf false => 'I' :: 'n' :: 'f' :: 'i' :: 'n' :: 'i' :: 't' :: 'y' :: []
  | .inf true => '-' :: 'I' :: 'n' :: 'f' :: 'i' :: 'n' :: 'i' :: 't' :: 'y' :: []

/-- Comma-separated serialization of array items. -/
def dumpsItems : List Json → List Char
  | [] => []
  | x :: rest =>
    match rest with
    | [] => dumps x
    | _ :: _ => dumps x ++ ',' :: ' ' :: dumpsItems rest

/-- Comma-separated serialization of object members. -/
def dumpsFields : List (String × Json) → List Char
  | [] => []
  | (k, v) :: rest =>
    match rest with
    | [] => dumpStr k.data ++ ':' :: ' ' :: dumps v
    | _ :: _ => dumpStr k.data ++ ':' :: ' ' :: dumps v ++ ',' :: ' ' :: dumpsFields rest

end

/-- ASCII lowercasing of one character, modelling `str.lower` on the
ASCII range (the serialized text compared by the query filter is pure
ASCII because `dumps` is `ensure_ascii`). -/
def lowerCh (c : Char) : Char :=
  if 65 ≤ c.toNat ∧ c.toNat ≤ 90 then Char.ofNat (c.toNat + 32) else c

/-- Model of `str.lower` over a character list. -/
def lowerList (cs : List Char) : List Char := cs.map lowerCh

/-- Model of `needle in hay` for Python strings: `startsWithCh` is prefix test. -/
def startsWithCh : List Char → List Char → Bool
  | _, [] => true
  | [], _ :: _ => false
  | h :: hs, n :: ns => h = n && startsWithCh hs ns

/-- Substring containment (`needle in hay` on Python `str`). -/
def containsSub (needle : List Char) : List Char → Bool
  | [] => startsWithCh [] needle
  | c :: t => startsWithCh (c :: t) needle || containsSub needle t

/-- The filter predicate of `get_logs`:
`search_query.lower() in json.dumps(log).lower()`. -/
def matchesQuery (q : List Char) (r : Json) : Bool :=
  containsSub (lowerList q) (lowerList (dumps r))

/-- The capacity `MAX_LOGS = 10000` (src/siem/main/src/app.py line 15). -/
def MAX_LOGS : Nat := 10000

/-- One completed append of the connection handler
(src/siem/main/src/app.py lines 173-177): `received_logs.append(entry)`
followed by `received_logs.pop(0)` when the length exceeds `MAX_LOGS`. -/
def appendLog (store : List Json) (r : Json) : List Json :=
  let s := store ++ [r]
  if MAX_LOGS < s.length then s.drop 1 else s

/-- Python list slice `xs[i:]` for an arbitrary integer `i`: a negative
start counts from the end (clamped at 0), a non-negative start is clamped
at the length. -/
def pySliceFrom (xs : List Json) (i : Int) : List Json :=
  if i < 0 then xs.drop (xs.length - (-i).toNat) else xs.drop i.toNat

/-- The result shape of the `/api/logs` endpoint. -/
structure QueryResult where
  total : Nat
  returned : Nat
  logs : List Json

/-- The log list computed by `get_logs` (src/siem/main/src/app.py lines
136-140): take `received_logs[-limit:]`, then, when the query string is
non-empty, keep the logs whose serialized JSON contains it
case-insensitively. -/
def queryLogs (store : List Json) (limit : Int) (q : List Char) : List Json :=
  let window := pySliceFrom store (-limit)
  if q = [] then window else window.filter (matchesQuery q)

/-- The query endpoint `get_logs` (continued): report
`total = len(received_logs)`, `returned = len(logs)`, and the logs. -/
def get_logs (store : List Json) (limit : Int) (q : List Char) : QueryResult :=
  { total := store.length, returned := (queryLogs store limit q).length,
    logs := queryLogs store limit q }

/-- Characters stripped by Python's `str.strip()` (the ASCII whitespace
ones; the claims never exercise the exotic Unicode whitespace). -/
def isStripWs (c : Char) : Bool :=
  c = ' ' || c = Char.ofNat 9 || c = Char.ofNat 10 || c = Char.ofNat 13
    || c = Char.ofNat 11 || c = Char.ofNat 12

/-- Model of `line.strip()` on a character list. -/
def trimCs (cs : List Char) : List Char :=
  ((cs.dropWhile isStripWs).reverse.dropWhile isStripWs).reverse

/-- The receiver-side stamping of a decoded record
(src/siem/main/src/app.py lines 170-171):
`log_entry['received_at'] = ts` then `log_entry['source'] = src`. -/
def stampFields (fs : List (String × Json)) (ts src : String) : List (String × Json) :=
  setKey (setKey fs "received_at" (Json.str ts)) "source" (Json.str src)

/-- The handler-visible part of the system state: the shared store, the
number of records this connection has appended (used to index the
per-record wall-clock timestamps), and whether the handler is still
running (`alive = false` once the outer `except Exception` has fired). -/
structure HState where
  store : List Json
  count : Nat
  alive : Bool

/-- Processing of one extracted line (src/siem/main/src/app.py lines
165-181): strip it; skip it when empty; on `json.JSONDecodeError` log and
skip; on a decoded object, stamp `received_at`/`source` and append to the
store; on a decoded non-object, `log_entry['received_at'] = ...` raises
`TypeError`, which the inner `except json.JSONDecodeError` does not
catch, so the handler's outer `except Exception` terminates the
connection (store untouched). -/
def procLine (tsF : Nat → String) (src : String) (h : HState) (line : List Char) : HState :=
  let t := trimCs line
  if t = [] then h
  else
    match parseJson t with
    | none => h
    | some (Json.obj fs) =>
      { h with
        store := appendLog h.store (Json.obj (stampFields fs (tsF h.count) src))
        count := h.count + 1 }
    | some _ => { h with alive := false }

/-- Process a batch of extracted lines in order; once the handler has
died, nothing further is processed. -/
def procLines (tsF : Nat → String) (src : String) : HState → List (List Char) → HState
  | h, [] => h
  | h, l :: ls => if h.alive then procLines tsF src (procLine tsF src h l) ls else h

/-- Split a buffer into its complete (newline-terminated) lines and the
trailing partial segment, mirroring the `while '\n' in buffer:
line, buffer = buffer.split('\n', 1)` loop. -/
def splitNl : List Char → List (List Char) × List Char
  | [] => ([], [])
  | c :: rest =>
    let p := splitNl rest
    if c = Char.ofNat 10 then ([] :: p.1, p.2)
    else
      match p.1 with
      | [] => ([], c :: p.2)
      | l :: ls => ((c :: l) :: ls, p.2)

/-- Full per-connection state: handler state plus the text buffer that
retains the trailing partial segment across reads. -/
structure ConnState where
  hs : HState
  buffer : List Char

/-- The connection handler's reaction to one received chunk of decoded
text (src/siem/main/src/app.py lines 160-181): append it to the buffer,
extract every complete line and process it.  A dead handler reads no
further data. -/
def feedChunk (tsF : Nat → String) (src : String) (c : ConnState) (chunk : List Char) : ConnState :=
  if c.hs.alive then
    let p := splitNl (c.buffer ++ chunk)
    { hs := procLines tsF src c.hs p.1, buffer := p.2 }
  else c

/-- Feed a sequence of received chunks. -/
def feedChunks (tsF : Nat → String) (src : String) (c : ConnState) (chunks : List (List Char)) : ConnState :=
  chunks.foldl (feedChunk tsF src) c

/-- The state of a fresh connection over the empty store. -/
def initConn : ConnState := { hs := { store := [], count := 0, alive := true }, buffer := [] }

/-- Continuation byte test for UTF-8. -/
def isCont (b : Nat) : Bool := 128 ≤ b && b ≤ 191

/-- Validity of the first continuation byte of a 3-byte sequence, which
depends on the lead byte (excludes overlong forms and surrogates). -/
def cont3ok (b0 b1 : Nat) : Bool :=
  if b0 = 224 then 160 ≤ b1 && b1 ≤ 191
  else if b0 = 237 then 128 ≤ b1 && b1 ≤ 159
  else isCont b1

/-- Validity of the first continuation byte of a 4-byte sequence. -/
def cont4ok (b0 b1 : Nat) : Bool :=
  if b0 = 240 then 144 ≤ b1 && b1 ≤ 191
  else if b0 = 244 then 128 ≤ b1 && b1 ≤ 143
  else isCont b1

/-- Fuel-bounded core of `bytes.decode('utf-8', errors='ignore')`.  Each
step consumes at least one byte while spending exactly one unit of fuel,
so fuel equal to the list length (supplied by `utf8DecodeIgnore`) never
runs out.  An invalid or overlong lead byte is dropped and decoding
resumes at the next byte; a failed continuation byte is re-examined as a
new lead; a sequence truncated by the end of the chunk is dropped
entirely.  This matches CPython's maximal-subpart error ranges with the
`ignore` handler. -/
def utf8Go : Nat → List Nat → List Char
  | 0, _ => []
  | _ + 1, [] => []
  | f + 1, b :: rest =>
    if b < 128 then Char.ofNat b :: utf8Go f rest
    else if 194 ≤ b ∧ b ≤ 223 then
      match rest with
      | [] => []
      | b1 :: rest1 =>
        if isCont b1 then Char.ofNat ((b - 192) * 64 + (b1 - 128)) :: utf8Go f rest1
        else utf8Go f (b1 :: rest1)
    else if 224 ≤ b ∧ b ≤ 239 then
      match rest with
      | [] => []
      | b1 :: rest1 =>
        if cont3ok b b1 then
          match rest1 with
          | [] => []
          | b2 :: rest2 =>
            if isCont b2 then
              Char.ofNat ((b - 224) * 4096 + (b1 - 128) * 64 + (b2 - 128)) :: utf8Go f rest2
            else utf8Go f (b2 :: rest2)
        else utf8Go f (b1 :: rest1)
    else if 240 ≤ b ∧ b ≤ 244 then
      match rest with
      | [] => []
      | b1 :: rest1 =>
        if cont4ok b b1 then
          match rest1 with
          | [] => []
          | b2 :: rest2 =>
            if isCont b2 then
              match rest2 with
              | [] => []
              | b3 :: rest3 =>
                if isCont b3 then
                  Char.ofNat ((b - 240) * 262144 + (b1 - 128) * 4096 + (b2 - 128) * 64 + (b3 - 128))
                    :: utf8Go f rest3
                else utf8Go f (b3 :: rest3)
            else utf8Go f (b2 :: rest2)
        else utf8Go f (b1 :: rest1)
    else utf8Go f rest

/-- Model of `bytes.decode('utf-8', errors='ignore')`: total decoding that drops
ill-formed subsequences rather than raising. -/
def utf8DecodeIgnore (bs : List Nat) : List Char := utf8Go bs.length bs

/-- One `recv` of raw bytes: `buffer += data.decode('utf-8',
errors='ignore')` followed by line processing
(src/siem/main/src/app.py lines 156-181). -/
def feedBytes (tsF : Nat → String) (src : String) (c : ConnState) (bs : List Nat) : ConnState :=
  feedChunk tsF src c (utf8DecodeIgnore bs)

/-- Feed a sequence of received byte chunks. -/
def feedBytesList (tsF : Nat → String) (src : String) (c : ConnState) (bss : List (List Nat)) : ConnState :=
  bss.foldl (feedBytes tsF src) c

/-- Modelled from the spec: "Select the most recent `limit` records from
the snapshot (newest-last order preserved; if `limit >= len(snapshot)`,
take all)."  Stated for the non-negative limits the spec's window
describes; used as the reference point for the refinement claims about
`get_logs`. -/
def specMostRecent (store : List Json) (limit : Int) : List Json :=
  store.drop (store.length - limit.toNat)

/-! ## Store lemmas -/

theorem MAX_LOGS_pos : 1 ≤ MAX_LOGS := by decide

/-- Closed form of a run of appends over the empty store: the store holds
exactly the suffix of the appended records that fits in `MAX_LOGS`. -/
theorem foldl_appendLog_eq_drop (rs : List Json) :
    List.foldl appendLog [] rs = rs.drop (rs.length - MAX_LOGS) := by
  induction rs using List.reverseRecOn with
  | nil => simp
  | append_singleton l r ih =>
    have hM := MAX_LOGS_pos
    rw [List.foldl_append, List.foldl_cons, List.foldl_nil, ih]
    by_cases hc : l.length < MAX_LOGS
    · have h1 : l.length - MAX_LOGS = 0 := by omega
      rw [h1, List.drop_zero]
      unfold appendLog
      rw [if_neg (by simp only [List.length_append, List.length_singleton]; omega)]
      have h2 : (l ++ [r]).length - MAX_LOGS = 0 := by
        simp only [List.length_append, List.length_singleton]; omega
      rw [h2, List.drop_zero]
    · unfold appendLog
      have hdlen : (l.drop (l.length - MAX_LOGS)).length = MAX_LOGS := by
        rw [List.length_drop]; omega
      rw [if_pos (by simp only [List.length_append, List.length_singleton, hdlen]; omega)]
      rw [List.drop_append_of_le_length (by rw [hdlen]; omega)]
      rw [List.drop_drop]
      rw [List.length_append, List.length_singleton]
      rw [List.drop_append_of_le_length (by omega)]
      have hidx : l.length - MAX_LOGS + 1 = l.length + 1 - MAX_LOGS := by omega
      rw [hidx]

/-- Length form: the store length is `min` of the number of appends and
the capacity. -/
theorem foldl_appendLog_length (rs : List Json) :
    (List.foldl appendLog [] rs).length = min rs.length MAX_LOGS := by
  rw [foldl_appendLog_eq_drop, List.length_drop]
  omega

/-- A list of `n` pairwise-distinct records, used to instantiate the store
theorems at capacity-sized inputs. -/
def mkRecords (n : Nat) : List Json := (List.range n).map (fun i => Json.num (Int.ofNat i) 0)

/-- The list `mkRecords n` has length `n`. -/
theorem mkRecords_length (n : Nat) : (mkRecords n).length = n := by
  rw [mkRecords, List.length_map, List.length_range]

/-- C1 — Capacity invariant: for every sequence of completed appends
(`received_logs.append` followed by the conditional `pop(0)`), the
store's length is at most `MAX_LOGS`, and once the cumulative number of
appends reaches `MAX_LOGS`, the length equals `MAX_LOGS`.  Because `rs`
ranges over all sequences, this holds in particular after every prefix of
a longer run, i.e. after each completed append. -/
theorem capacity_invariant (rs : List Json) :
    (List.foldl appendLog [] rs).length ≤ MAX_LOGS ∧
    (MAX_LOGS ≤ rs.length → (List.foldl appendLog [] rs).length = MAX_LOGS) := by
  rw [foldl_appendLog_length]
  omega

/-- Witness for C1: `MAX_LOGS + 1` appends leave exactly `MAX_LOGS`
records. -/
theorem capacity_invariant_witness :
    MAX_LOGS ≤ (mkRecords (MAX_LOGS + 1)).length ∧
    (List.foldl appendLog [] (mkRecords (MAX_LOGS + 1))).length = MAX_LOGS :=
  ⟨by rw [mkRecords_length]; omega,
    (capacity_invariant (mkRecords (MAX_LOGS + 1))).2 (by rw [mkRecords_length]; omega)⟩

/-- C4 — FIFO eviction: appending `MAX_LOGS + 1` records to the empty
store leaves exactly records `2 .. MAX_LOGS + 1` in original order (the
first record is evicted). -/
theorem fifo_eviction (rs : List Json) (h : rs.length = MAX_LOGS + 1) :
    List.foldl appendLog [] rs = rs.drop 1 := by
  rw [foldl_appendLog_eq_drop, h]
  have hidx : MAX_LOGS + 1 - MAX_LOGS = 1 := by omega
  rw [hidx]

/-- Witness for C4 at `MAX_LOGS + 1` distinct records. -/
theorem fifo_eviction_witness :
    (mkRecords (MAX_LOGS + 1)).length = MAX_LOGS + 1 ∧
    List.foldl appendLog [] (mkRecords (MAX_LOGS + 1)) = (mkRecords (MAX_LOGS + 1)).drop 1 :=
  ⟨by rw [mkRecords_length], fifo_eviction (mkRecords (MAX_LOGS + 1)) (by rw [mkRecords_length])⟩

/-- The `total` reported by `get_logs` is the store's current length. -/
theorem get_logs_total (store : List Json) (limit : Int) (q : List Char) :
    (get_logs store limit q).total = store.length := rfl

/-- Counterexample for C5: after `MAX_LOGS + 1` appends the cumulative
number of records ever appended is `MAX_LOGS + 1`, but the `total`
reported by `get_logs` (the code's only counter, `len(received_logs)`) is
`MAX_LOGS`.  No operation of the code returns the cumulative count. -/
theorem total_count_not_cumulative_cex :
    (get_logs (List.foldl appendLog [] (mkRecords (MAX_LOGS + 1))) 100 []).total = MAX_LOGS ∧
    (mkRecords (MAX_LOGS + 1)).length = MAX_LOGS + 1 ∧
    MAX_LOGS ≠ MAX_LOGS + 1 := by
  refine ⟨?_, by rw [mkRecords_length], by omega⟩
  rw [get_logs_total, foldl_appendLog_length, mkRecords_length]
  omega

/-- C5 as amended: the `total` field reported by `get_logs` is the
store's current length, `min` of the cumulative append count and
`MAX_LOGS` — not the cumulative count, which the code does not track. -/
theorem total_is_current_length (rs : List Json) (limit : Int) (q : List Char) :
    (get_logs (List.foldl appendLog [] rs) limit q).total = min rs.length MAX_LOGS := by
  rw [get_logs_total, foldl_appendLog_length]

/-! ## Query lemmas -/

/-- The field `(get_logs ...).logs` is `queryLogs ...`. -/
theorem get_logs_logs (store : List Json) (limit : Int) (q : List Char) :
    (get_logs store limit q).logs = queryLogs store limit q := rfl

/-- The field `(get_logs ...).returned` is the length of `queryLogs ...`. -/
theorem get_logs_returned (store : List Json) (limit : Int) (q : List Char) :
    (get_logs store limit q).returned = (queryLogs store limit q).length := rfl

/-- With a non-empty query string, `queryLogs` filters the slice. -/
theorem queryLogs_filter (store : List Json) (limit : Int) (q : List Char) (hq : q ≠ []) :
    queryLogs store limit q = (pySliceFrom store (-limit)).filter (matchesQuery q) := by
  unfold queryLogs
  exact if_neg hq

/-- With an empty query string, `queryLogs` is just the slice. -/
theorem queryLogs_nofilter (store : List Json) (limit : Int) :
    queryLogs store limit [] = pySliceFrom store (-limit) := by
  unfold queryLogs
  exact if_pos rfl

/-- For a positive limit, the Python slice `store[-limit:]` is the
spec's "most recent `limit` records" window. -/
theorem pySliceFrom_neg_limit (store : List Json) (limit : Int) (hl : 1 ≤ limit) :
    pySliceFrom store (-limit) = specMostRecent store limit := by
  unfold pySliceFrom specMostRecent
  rw [if_pos (by omega), Int.neg_neg]

/-- Sample records used by the concrete query instances (the spec's §8
"Query filter correctness" example data). -/
def recAlpha : Json := Json.obj [("a", Json.str "alpha")]

/-- Second sample record. -/
def recBeta : Json := Json.obj [("a", Json.str "beta")]

/-- Third sample record. -/
def recGamma : Json := Json.obj [("a", Json.str "gamma")]

/-- C3 as amended (restricted to positive limits; see the limit-zero
counterexample): with a non-empty filter, `get_logs` first selects the
most recent `limit` records and then retains those whose serialized JSON
contains the filter case-insensitively, preserving relative order
(the result is a sublist of the window), with `returned` the length of
the filtered result.  A matching record older than the window therefore
never appears. -/
theorem query_window_then_filter (store : List Json) (limit : Int) (q : List Char)
    (hq : q ≠ []) (hl : 1 ≤ limit) :
    (get_logs store limit q).logs = (specMostRecent store limit).filter (matchesQuery q) ∧
    (get_logs store limit q).returned
      = ((specMostRecent store limit).filter (matchesQuery q)).length ∧
    List.Sublist (get_logs store limit q).logs (specMostRecent store limit) := by
  have hlogs : (get_logs store limit q).logs
      = (specMostRecent store limit).filter (matchesQuery q) := by
    rw [get_logs_logs, queryLogs_filter store limit q hq, pySliceFrom_neg_limit store limit hl]
  refine ⟨hlogs, ?_, ?_⟩
  · rw [get_logs_returned, queryLogs_filter store limit q hq, pySliceFrom_neg_limit store limit hl]
  · rw [hlogs]
    exact List.filter_sublist _

/-- Witness for C3 as amended, on the spec's §8 example data. -/
theorem query_window_then_filter_witness :
    ("alp".toList ≠ ([] : List Char)) ∧ ((1 : Int) ≤ 10) ∧
    ((get_logs [recAlpha, recBeta] 10 ("alp".toList)).logs
      = (specMostRecent [recAlpha, recBeta] 10).filter (matchesQuery ("alp".toList)) ∧
    (get_logs [recAlpha, recBeta] 10 ("alp".toList)).returned
      = ((specMostRecent [recAlpha, recBeta] 10).filter (matchesQuery ("alp".toList))).length ∧
    List.Sublist (get_logs [recAlpha, recBeta] 10 ("alp".toList)).logs
      (specMostRecent [recAlpha, recBeta] 10)) :=
  ⟨by decide, by decide,
    query_window_then_filter [recAlpha, recBeta] 10 ("alp".toList) (by decide) (by decide)⟩

/-- Counterexample for C3 as stated: at `limit = 0` the claimed window
("the most recent 0 records") is empty, so a matching record should not
be returned — but the code's `received_logs[-0:]` is the whole list, and
the matching record is returned (`returned = 1`). -/
theorem query_limit_zero_cex :
    (get_logs [recAlpha] 0 ("alp".toList)).returned = 1 ∧
    ((specMostRecent [recAlpha] 0).filter (matchesQuery ("alp".toList))).length = 0 :=
  ⟨by decide, by decide⟩

/-- C6 as amended: for a positive limit, `get_logs` considers exactly the
most recent `min limit length` records; for a non-positive limit the
code neither rejects nor clamps — `received_logs[-limit:]` drops the
first `-limit` records (so `limit = 0` yields the whole store, not zero
records). -/
theorem limit_slice_semantics (store : List Json) (lp ln : Int)
    (hp : 1 ≤ lp) (hn : ln ≤ 0) :
    (get_logs store lp []).logs = specMostRecent store lp ∧
    (get_logs store ln []).logs = store.drop (-ln).toNat := by
  constructor
  · rw [get_logs_logs, queryLogs_nofilter, pySliceFrom_neg_limit store lp hp]
  · rw [get_logs_logs, queryLogs_nofilter]
    unfold pySliceFrom
    rw [if_neg (by omega)]

/-- Witness for C6 as amended at `limit = 2` and `limit = -1` over a
three-record store. -/
theorem limit_slice_semantics_witness :
    ((1 : Int) ≤ 2) ∧ ((-1 : Int) ≤ 0) ∧
    ((get_logs [recAlpha, recBeta, recGamma] 2 []).logs
      = specMostRecent [recAlpha, recBeta, recGamma] 2 ∧
    (get_logs [recAlpha, recBeta, recGamma] (-1) []).logs
      = [recAlpha, recBeta, recGamma].drop (-(-1 : Int)).toNat) :=
  ⟨by decide, by decide,
    limit_slice_semantics [recAlpha, recBeta, recGamma] 2 (-1) (by decide) (by decide)⟩

/-- Counterexample for C6 as stated: `limit = 0` on a non-empty store is
within the range `0 .. len(store)`, and the claim requires zero records
to be considered; the code returns every record (`returned = 2`), so the
limit is neither honoured, rejected, nor clamped. -/
theorem limit_zero_not_clamped_cex :
    (get_logs [recBeta, recGamma] 0 []).returned = 2 ∧
    (specMostRecent [recBeta, recGamma] 0).length = 0 :=
  ⟨by decide, by decide⟩

/-! ## Stamping and line-processing lemmas -/

/-- Looking up the key just set returns the new value. -/
theorem lookupKey_setKey_same (fs : List (String × Json)) (k : String) (v : Json) :
    lookupKey (setKey fs k v) k = some v := by
  induction fs with
  | nil => simp [setKey, lookupKey]
  | cons kv rest ih =>
    obtain ⟨k0, v0⟩ := kv
    by_cases h : k0 = k
    · simp [setKey, lookupKey, h]
    · simp [setKey, lookupKey, h, ih]

/-- Setting one key leaves the lookup of a different key unchanged. -/
theorem lookupKey_setKey_other (fs : List (String × Json)) (k k' : String) (v : Json)
    (hne : k' ≠ k) :
    lookupKey (setKey fs k v) k' = lookupKey fs k' := by
  induction fs with
  | nil =>
    simp only [setKey, lookupKey]
    rw [if_neg (Ne.symm hne)]
  | cons kv rest ih =>
    obtain ⟨k0, v0⟩ := kv
    by_cases h : k0 = k
    · subst h
      simp only [setKey, if_pos rfl, lookupKey]
      rw [if_neg (Ne.symm hne), if_neg (Ne.symm hne)]
    · simp only [setKey, if_neg h, lookupKey]
      by_cases h2 : k0 = k'
      · rw [if_pos h2, if_pos h2]
      · rw [if_neg h2, if_neg h2]
        exact ih

/-- The empty line is a decode error (`json.loads('')` raises). -/
theorem parseJson_nil : parseJson [] = none := rfl

/-- A successfully parsed line is non-empty. -/
theorem parse_some_ne_nil (cs : List Char) (v : Json) (hp : parseJson cs = some v) :
    cs ≠ [] := by
  intro he
  rw [he, parseJson_nil] at hp
  exact Option.noConfusion hp

/-- Running `procLine` on a line decoding to an object: stamp and append, and
bump the per-connection record counter. -/
theorem procLine_obj (tsF : Nat → String) (src : String) (h : HState) (line : List Char)
    (fs : List (String × Json)) (hp : parseJson (trimCs line) = some (Json.obj fs)) :
    procLine tsF src h line
      = { h with
          store := appendLog h.store (Json.obj (stampFields fs (tsF h.count) src))
          count := h.count + 1 } := by
  have hne : trimCs line ≠ [] := parse_some_ne_nil _ _ hp
  simp [procLine, hne, hp]

/-- Running `procLine` on a line that fails to decode (`json.JSONDecodeError`),
or a blank line: no effect. -/
theorem procLine_err (tsF : Nat → String) (src : String) (h : HState) (line : List Char)
    (hp : parseJson (trimCs line) = none) :
    procLine tsF src h line = h := by
  by_cases he : trimCs line = []
  · simp [procLine, he]
  · simp [procLine, he, hp]

/-- Running `procLine` on a line decoding to a non-object value: the item
assignment raises `TypeError`, uncaught by the inner handler, so the
connection handler dies with the store untouched. -/
theorem procLine_nonobj (tsF : Nat → String) (src : String) (h : HState) (line : List Char)
    (v : Json) (hp : parseJson (trimCs line) = some v) (hv : v.isObj = false) :
    procLine tsF src h line = { h with alive := false } := by
  have hne : trimCs line ≠ [] := parse_some_ne_nil _ _ hp
  cases v with
  | obj fs => simp [Json.isObj] at hv
  | null => simp [procLine, hne, hp]
  | bool b => simp [procLine, hne, hp]
  | num m e => simp [procLine, hne, hp]
  | str s => simp [procLine, hne, hp]
  | arr xs => simp [procLine, hne, hp]
  | nan => simp [procLine, hne, hp]
  | inf n => simp [procLine, hne, hp]

/-- Step lemma for `procLines` on a live handler. -/
theorem procLines_cons_alive (tsF : Nat → String) (src : String) (h : HState)
    (l : List Char) (ls : List (List Char)) (ha : h.alive = true) :
    procLines tsF src h (l :: ls) = procLines tsF src (procLine tsF src h l) ls := by
  simp [procLines, ha]

/-- A dead handler processes nothing. -/
theorem procLines_dead (tsF : Nat → String) (src : String) (h : HState)
    (ls : List (List Char)) (ha : h.alive = false) :
    procLines tsF src h ls = h := by
  cases ls with
  | nil => rfl
  | cons l ls => simp [procLines, ha]

/-- C7 — Stamping: a record decoded from a line as a JSON object is
stored stamped: `received_at` is overwritten with the receiver's
timestamp and `source` with the connection's peer address, regardless of
any forwarder-supplied values for those keys, and the stored
`received_at` is non-empty whenever the receiver's clock string is. -/
theorem stamping_overwrites (tsF : Nat → String) (src : String) (h : HState)
    (line : List Char) (fs : List (String × Json))
    (hp : parseJson (trimCs line) = some (Json.obj fs))
    (hts : tsF h.count ≠ "") :
    (procLine tsF src h line).store
      = appendLog h.store (Json.obj (stampFields fs (tsF h.count) src)) ∧
    lookupKey (stampFields fs (tsF h.count) src) "received_at"
      = some (Json.str (tsF h.count)) ∧
    lookupKey (stampFields fs (tsF h.count) src) "source" = some (Json.str src) ∧
    lookupKey (stampFields fs (tsF h.count) src) "received_at" ≠ some (Json.str "") := by
  have hra : lookupKey (stampFields fs (tsF h.count) src) "received_at"
      = some (Json.str (tsF h.count)) := by
    unfold stampFields
    rw [lookupKey_setKey_other _ _ _ _ (by decide)]
    exact lookupKey_setKey_same _ _ _
  refine ⟨?_, hra, ?_, ?_⟩
  · rw [procLine_obj tsF src h line fs hp]
  · unfold stampFields
    exact lookupKey_setKey_same _ _ _
  · rw [hra]
    intro heq
    exact hts (Json.str.inj (Option.some.inj heq))

/-- A fixed receiver timestamp used in the concrete instances. -/
def tsF0 : Nat → String := fun _ => "2026-01-01T00:00:00"

/-- A forwarder line that tries to spoof `received_at` and `source`. -/
def fwdLine : List Char :=
  "\x7b\"received_at\": \"fake\", \"source\": \"evil\", \"msg\": \"hi\"\x7d".toList

/-- The decode of `fwdLine`. -/
def fwdFields : List (String × Json) :=
  [("received_at", Json.str "fake"), ("source", Json.str "evil"), ("msg", Json.str "hi")]

/-- Witness for C7: the spoofing line is stored with the receiver's
values winning. -/
theorem stamping_overwrites_witness :
    (parseJson (trimCs fwdLine) = some (Json.obj fwdFields) ∧ tsF0 0 ≠ "") ∧
    ((procLine tsF0 "10.0.0.1" initConn.hs fwdLine).store
      = appendLog initConn.hs.store
          (Json.obj (stampFields fwdFields (tsF0 initConn.hs.count) "10.0.0.1")) ∧
    lookupKey (stampFields fwdFields (tsF0 initConn.hs.count) "10.0.0.1") "received_at"
      = some (Json.str (tsF0 initConn.hs.count)) ∧
    lookupKey (stampFields fwdFields (tsF0 initConn.hs.count) "10.0.0.1") "source"
      = some (Json.str "10.0.0.1") ∧
    lookupKey (stampFields fwdFields (tsF0 initConn.hs.count) "10.0.0.1") "received_at"
      ≠ some (Json.str "")) :=
  ⟨⟨rfl, by decide⟩,
    stamping_overwrites tsF0 "10.0.0.1" initConn.hs fwdLine fwdFields rfl (by decide)⟩

/-- C2 as amended: a line that fails JSON decoding
(`json.JSONDecodeError`) is local — between two valid object lines it is
logged and dropped, both neighbours are stored, and the handler stays
alive.  But a line holding valid JSON whose top-level value is not an
object (array or scalar) raises an uncaught `TypeError` at the stamping
assignment: only the first neighbour is stored, the handler dies, and
the following lines are never processed. -/
theorem decode_error_locality (tsF : Nat → String) (src : String) (h : HState)
    (l1 l2 l3 lb : List Char) (f1 f3 : List (String × Json)) (v : Json)
    (h1 : parseJson (trimCs l1) = some (Json.obj f1))
    (h2 : parseJson (trimCs l2) = none)
    (h3 : parseJson (trimCs l3) = some (Json.obj f3))
    (hb : parseJson (trimCs lb) = some v)
    (hv : v.isObj = false)
    (ha : h.alive = true) :
    procLines tsF src h [l1, l2, l3]
      = { store := appendLog (appendLog h.store (Json.obj (stampFields f1 (tsF h.count) src)))
                     (Json.obj (stampFields f3 (tsF (h.count + 1)) src)),
          count := h.count + 2, alive := true } ∧
    procLines tsF src h [l1, lb, l3]
      = { store := appendLog h.store (Json.obj (stampFields f1 (tsF h.count) src)),
          count := h.count + 1, alive := false } := by
  have e1 := procLine_obj tsF src h l1 f1 h1
  constructor
  · rw [procLines_cons_alive tsF src h l1 [l2, l3] ha, e1, ha]
    rw [procLines_cons_alive _ _ _ _ _ rfl]
    rw [procLine_err tsF src _ l2 h2]
    rw [procLines_cons_alive _ _ _ _ _ rfl]
    rw [procLine_obj tsF src _ l3 f3 h3]
    rfl
  · rw [procLines_cons_alive tsF src h l1 [lb, l3] ha, e1, ha]
    rw [procLines_cons_alive _ _ _ _ _ rfl]
    rw [procLine_nonobj tsF src _ lb v hb hv]
    rw [procLines_dead _ _ _ _ rfl]

/-- Counterexample for C2 as stated: in the stream
`{"a": 1}\n[1, 2]\n{"b": 2}\n` the middle line is a decode failure in
the claim's sense (valid JSON, non-object top level); the claim requires
both surrounding valid lines to be stored and the connection to
continue, but the code stores only one record and the handler dies. -/
theorem nonobject_line_kills_connection_cex :
    (feedChunk tsF0 "10.0.0.1" initConn
        ("\x7b\"a\": 1\x7d\n[1, 2]\n\x7b\"b\": 2\x7d\n".toList)).hs.store.length = 1 ∧
    (feedChunk tsF0 "10.0.0.1" initConn
        ("\x7b\"a\": 1\x7d\n[1, 2]\n\x7b\"b\": 2\x7d\n".toList)).hs.alive = false :=
  ⟨by decide, by decide⟩

/-- Witness for C2 as amended, at a malformed middle line `not json` and
a non-object middle line `[1, 2]`. -/
theorem decode_error_locality_witness :
    (parseJson (trimCs ("\x7b\"a\": 1\x7d".toList)) = some (Json.obj [("a", Json.num 1 0)]) ∧
     parseJson (trimCs ("not json".toList)) = none ∧
     parseJson (trimCs ("\x7b\"b\": 2\x7d".toList)) = some (Json.obj [("b", Json.num 2 0)]) ∧
     parseJson (trimCs ("[1, 2]".toList)) = some (Json.arr [Json.num 1 0, Json.num 2 0]) ∧
     (Json.arr [Json.num 1 0, Json.num 2 0]).isObj = false ∧
     initConn.hs.alive = true) ∧
    (procLines tsF0 "10.0.0.1" initConn.hs
        ["\x7b\"a\": 1\x7d".toList, "not json".toList, "\x7b\"b\": 2\x7d".toList]
      = { store := appendLog
            (appendLog initConn.hs.store
              (Json.obj (stampFields [("a", Json.num 1 0)] (tsF0 initConn.hs.count) "10.0.0.1")))
            (Json.obj (stampFields [("b", Json.num 2 0)] (tsF0 (initConn.hs.count + 1)) "10.0.0.1")),
          count := initConn.hs.count + 2, alive := true } ∧
    procLines tsF0 "10.0.0.1" initConn.hs
        ["\x7b\"a\": 1\x7d".toList, "[1, 2]".toList, "\x7b\"b\": 2\x7d".toList]
      = { store := appendLog initConn.hs.store
            (Json.obj (stampFields [("a", Json.num 1 0)] (tsF0 initConn.hs.count) "10.0.0.1")),
          count := initConn.hs.count + 1, alive := false }) :=
  ⟨⟨rfl, rfl, rfl, rfl, rfl, rfl⟩,
    decode_error_locality tsF0 "10.0.0.1" initConn.hs
      ("\x7b\"a\": 1\x7d".toList) ("not json".toList) ("\x7b\"b\": 2\x7d".toList)
      ("[1, 2]".toList) [("a", Json.num 1 0)] [("b", Json.num 2 0)]
      (Json.arr [Json.num 1 0, Json.num 2 0]) rfl rfl rfl rfl rfl rfl⟩

/-! ## Buffering lemmas -/

/-- Running `splitNl` on the empty buffer. -/
theorem splitNl_nil : splitNl [] = ([], []) := rfl

/-- The `splitNl` step on a newline. -/
theorem splitNl_cons_nl (rest : List Char) :
    splitNl (Char.ofNat 10 :: rest) = ([] :: (splitNl rest).1, (splitNl rest).2) := by
  simp [splitNl]

/-- The `splitNl` step on a non-newline character. -/
theorem splitNl_cons_other (c : Char) (rest : List Char) (hc : c ≠ Char.ofNat 10) :
    splitNl (c :: rest)
      = (match (splitNl rest).1 with
         | [] => ([], c :: (splitNl rest).2)
         | l :: ls => ((c :: l) :: ls, (splitNl rest).2)) := by
  simp [splitNl, hc]

/-- The residual of `splitNl` holds no newline: the buffer retained
across reads is always a partial line. -/
theorem splitNl_snd_no_nl (cs : List Char) : Char.ofNat 10 ∉ (splitNl cs).2 := by
  induction cs with
  | nil => simp [splitNl_nil]
  | cons c rest ih =>
    by_cases hc : c = Char.ofNat 10
    · subst hc
      rw [splitNl_cons_nl]
      exact ih
    · rw [splitNl_cons_other c rest hc]
      cases h1 : (splitNl rest).1 with
      | nil =>
        simp only [List.mem_cons]
        rintro (h | h)
        · exact hc h.symm
        · exact ih h
      | cons l ls => exact ih

/-- A newline-free buffer splits into no lines and itself. -/
theorem splitNl_no_nl (cs : List Char) (h : Char.ofNat 10 ∉ cs) : splitNl cs = ([], cs) := by
  induction cs with
  | nil => rfl
  | cons c rest ih =>
    have hc : c ≠ Char.ofNat 10 := fun he => h (he ▸ List.mem_cons_self c rest)
    have hrest : Char.ofNat 10 ∉ rest := fun hm => h (List.mem_cons_of_mem c hm)
    rw [splitNl_cons_other c rest hc, ih hrest]

/-- Appending more input to a buffer extends the extracted lines: the
lines of `xs ++ ys` are the lines of `xs` followed by the lines of the
residual of `xs` glued to `ys`, with the new residual taken from the
latter.  This is the key fact behind partial-line reassembly. -/
theorem splitNl_append (xs ys : List Char) :
    splitNl (xs ++ ys)
      = ((splitNl xs).1 ++ (splitNl ((splitNl xs).2 ++ ys)).1,
         (splitNl ((splitNl xs).2 ++ ys)).2) := by
  induction xs with
  | nil => simp [splitNl_nil]
  | cons c xs ih =>
    by_cases hc : c = Char.ofNat 10
    · subst hc
      rw [List.cons_append, splitNl_cons_nl, ih, splitNl_cons_nl xs]
      simp
    · rw [List.cons_append, splitNl_cons_other c (xs ++ ys) hc, ih, splitNl_cons_other c xs hc]
      cases h1 : (splitNl xs).1 with
      | nil =>
        simp only [List.nil_append]
        rw [List.cons_append, splitNl_cons_other c ((splitNl xs).2 ++ ys) hc]
      | cons l1 ls1 =>
        simp

/-- Batched line processing decomposes over concatenation (the early
exit of a dead handler is absorbing). -/
theorem procLines_append (tsF : Nat → String) (src : String) (h : HState)
    (ls1 ls2 : List (List Char)) :
    procLines tsF src h (ls1 ++ ls2) = procLines tsF src (procLines tsF src h ls1) ls2 := by
  induction ls1 generalizing h with
  | nil => rfl
  | cons l ls ih =>
    cases hA : h.alive with
    | false =>
      rw [procLines_dead tsF src h ((l :: ls) ++ ls2) hA, procLines_dead tsF src h (l :: ls) hA,
        procLines_dead tsF src h ls2 hA]
    | true =>
      rw [List.cons_append, procLines_cons_alive tsF src h l (ls ++ ls2) hA,
        procLines_cons_alive tsF src h l ls hA, ih]

/-- Two consecutive reads reach the same handler state as one combined
read: the buffer retains the partial segment, and line processing
composes. -/
theorem feedChunk_feedChunk (tsF : Nat → String) (src : String) (c : ConnState)
    (a b : List Char) :
    (feedChunk tsF src (feedChunk tsF src c a) b).hs = (feedChunk tsF src c (a ++ b)).hs := by
  cases hA : c.hs.alive with
  | false => simp [feedChunk, hA]
  | true =>
    have hsplit : splitNl (c.buffer ++ (a ++ b))
        = ((splitNl (c.buffer ++ a)).1 ++ (splitNl ((splitNl (c.buffer ++ a)).2 ++ b)).1,
           (splitNl ((splitNl (c.buffer ++ a)).2 ++ b)).2) := by
      rw [← List.append_assoc]
      exact splitNl_append (c.buffer ++ a) b
    simp only [feedChunk, hA, if_true, hsplit]
    cases hA2 : (procLines tsF src c.hs (splitNl (c.buffer ++ a)).1).alive with
    | true =>
      simp only [hA2, if_true]
      rw [procLines_append]
    | false =>
      simp only [hA2, Bool.false_eq_true, if_false]
      rw [procLines_append, procLines_dead _ _ _ _ hA2]

/-- C8 as amended: at the level of decoded text, delivering a stream as
any sequence of read chunks reaches the same handler state (same stored
records in the same order, same count, same liveness) as delivering the
concatenation in one read — a single line split across reads yields
exactly one record, identical to sending it unsplit, and blank segments
are skipped.  (At the raw-byte level the claim fails: per-chunk
`decode('utf-8', errors='ignore')` drops a multi-byte character split
across two reads — see the byte-split counterexample.) -/
theorem chunk_reassembly (tsF : Nat → String) (src : String) (c : ConnState)
    (chunks : List (List Char)) (hb : Char.ofNat 10 ∉ c.buffer) :
    (feedChunks tsF src c chunks).hs = (feedChunk tsF src c chunks.flatten).hs := by
  induction chunks generalizing c with
  | nil =>
    have hnil : feedChunk tsF src c [] = c := by
      cases hA : c.hs.alive with
      | false => simp [feedChunk, hA]
      | true =>
        simp [feedChunk, hA, List.append_nil, splitNl_no_nl c.buffer hb, procLines]
    rw [List.flatten_nil, hnil]
    rfl
  | cons ch chunks ih =>
    have hb' : Char.ofNat 10 ∉ (feedChunk tsF src c ch).buffer := by
      cases hA : c.hs.alive with
      | false => simpa [feedChunk, hA] using hb
      | true =>
        simp only [feedChunk, hA, if_true]
        exact splitNl_snd_no_nl (c.buffer ++ ch)
    have hstep : feedChunks tsF src c (ch :: chunks)
        = feedChunks tsF src (feedChunk tsF src c ch) chunks := rfl
    rw [hstep, ih (feedChunk tsF src c ch) hb', feedChunk_feedChunk, List.flatten_cons]

/-- Witness for C8 as amended: the spec's partial-line scenario, one
JSON line split mid-field across two reads. -/
theorem chunk_reassembly_witness :
    (Char.ofNat 10 ∉ initConn.buffer) ∧
    (feedChunks tsF0 "10.0.0.1" initConn
        ["\x7b\"k\": \"va".toList, "lue\"\x7d\n".toList]).hs
      = (feedChunk tsF0 "10.0.0.1" initConn
          (["\x7b\"k\": \"va".toList, "lue\"\x7d\n".toList].flatten)).hs :=
  ⟨by decide,
    chunk_reassembly tsF0 "10.0.0.1" initConn
      ["\x7b\"k\": \"va".toList, "lue\"\x7d\n".toList] (by decide)⟩

/-- Counterexample for C8 as stated: the byte stream of the line
`{"a":"é"}\n` delivered in one read stores the record with `a = "é"`
(code point 233), but split between the two bytes of `é` each chunk's
`decode(..., errors='ignore')` drops the half character, storing
`a = ""` — the same byte stream chunked differently yields different
records. -/
theorem byte_split_changes_records_cex :
    (feedBytesList tsF0 "10.0.0.1" initConn
        [[123, 34, 97, 34, 58, 34, 195, 169, 34, 125, 10]]).hs.store
      = [Json.obj [("a", Json.str (chListStr [Char.ofNat 233])),
          ("received_at", Json.str "2026-01-01T00:00:00"),
          ("source", Json.str "10.0.0.1")]] ∧
    (feedBytesList tsF0 "10.0.0.1" initConn
        [[123, 34, 97, 34, 58, 34, 195], [169, 34, 125, 10]]).hs.store
      = [Json.obj [("a", Json.str ""),
          ("received_at", Json.str "2026-01-01T00:00:00"),
          ("source", Json.str "10.0.0.1")]] ∧
    chListStr [Char.ofNat 233] ≠ "" :=
  ⟨rfl, rfl, by decide⟩

/-- C10 — Lossy byte decoding: decoding is total (it is a function) and
an invalid byte such as `0xFF` inside an otherwise ASCII stream is
silently dropped before line splitting, so the whole ingestion pipeline
behaves exactly as if the offending byte had never been sent: the line
is not rejected, and the stored record is the one decoded from the
cleaned text. -/
theorem lossy_byte_decode (tsF : Nat → String) (src : String) (c : ConnState)
    (pre post : List Nat) (hpre : ∀ b ∈ pre, b < 128) :
    utf8DecodeIgnore (pre ++ 255 :: post) = utf8DecodeIgnore (pre ++ post) ∧
    feedBytes tsF src c (pre ++ 255 :: post) = feedBytes tsF src c (pre ++ post) := by
  have hdec : utf8DecodeIgnore (pre ++ 255 :: post) = utf8DecodeIgnore (pre ++ post) := by
    induction pre with
    | nil =>
      simp only [List.nil_append, utf8DecodeIgnore, List.length_cons]
      simp [utf8Go]
    | cons b pre ih =>
      have hb : b < 128 := hpre b (List.mem_cons_self b pre)
      have hpre' : ∀ x ∈ pre, x < 128 := fun x hx => hpre x (List.mem_cons_of_mem b hx)
      simp only [List.cons_append, utf8DecodeIgnore, List.length_cons]
      simp only [utf8Go, if_pos hb]
      exact congrArg (fun t => Char.ofNat b :: t) (ih hpre')
  refine ⟨hdec, ?_⟩
  unfold feedBytes
  rw [hdec]

/-- Witness for C10: the bytes of `{"m":ÿ 1}\n` (with the invalid byte
`0xFF` after the colon) ingest exactly like the clean `{"m": 1}\n`. -/
theorem lossy_byte_decode_witness :
    (∀ b ∈ ([123, 34, 109, 34, 58] : List Nat), b < 128) ∧
    (utf8DecodeIgnore ([123, 34, 109, 34, 58] ++ 255 :: [32, 49, 125, 10])
      = utf8DecodeIgnore ([123, 34, 109, 34, 58] ++ [32, 49, 125, 10]) ∧
    feedBytes tsF0 "10.0.0.1" initConn ([123, 34, 109, 34, 58] ++ 255 :: [32, 49, 125, 10])
      = feedBytes tsF0 "10.0.0.1" initConn ([123, 34, 109, 34, 58] ++ [32, 49, 125, 10])) :=
  ⟨by decide,
    lossy_byte_decode tsF0 "10.0.0.1" initConn [123, 34, 109, 34, 58] [32, 49, 125, 10]
      (by decide)⟩
